import Mathlib

/-!
Verification of the knowledge-hub backend (Express/Mongoose service).

Strings are modelled as `List Char`; the MongoDB document store is modelled
as a `List Article`, with the unique index on `articleNumber` represented by
membership tests, and `insertMany(..., { ordered:false })` as a left fold
that skips colliding documents while counting the write errors.  Each HTTP
route body is translated into a pure function from the store and the request
payload to the new store and the response.

The repository holds several variants of the same service (two apps in
`server.js`, two in `src/unnamed/part_004`).  Where variants differ, the
differing bodies are embedded side by side (`..._v1` marks the variant of
the first app of `src/unnamed/part_004`).
-/

namespace KnowledgeHub

/-- JS `\s` for the characters this service ever meets (ASCII whitespace):
space, tab, newline, carriage return, vertical tab, form feed. -/
def isJsWS (c : Char) : Bool :=
  c = ' ' || c = '\t' || c = '\n' || c = '\r' || c = '\x0b' || c = '\x0c'

/-- `String.prototype.trimStart`: drop leading whitespace. -/
def trimLeft (l : List Char) : List Char := l.dropWhile isJsWS

/-- `String.prototype.trimEnd`: drop trailing whitespace. -/
def trimRight : List Char → List Char
  | [] => []
  | c :: rest =>
    match trimRight rest with
    | [] => if isJsWS c then [] else [c]
    | r => c :: r

/-- `String.prototype.trim`. -/
def trimWS (l : List Char) : List Char := trimRight (trimLeft l)

/-- `replace(/\s+/g, " ")`: every maximal run of whitespace becomes one
space.  In a run only the last whitespace character emits the space. -/
def collapseWS : List Char → List Char
  | [] => []
  | [c] => if isJsWS c then [' '] else [c]
  | a :: b :: rest =>
    if isJsWS a && isJsWS b then collapseWS (b :: rest)
    else (if isJsWS a then ' ' else a) :: collapseWS (b :: rest)

/-- `makeSummary` of `server.js` (second app, lines 274-278) and of the
second app of `part_004`: `String(content || "").trim().replace(/\s+/g, " ")`,
empty stays empty, over 140 characters is cut to 140 plus `"..."`. -/
def makeSummary (content : List Char) : List Char :=
  let txt := collapseWS (trimWS content)
  if txt.isEmpty then []
  else if 140 < txt.length then txt.take 140 ++ ['.', '.', '.']
  else txt

/-- `makeSummary` of the first app of `part_004` (lines 65-69):
`String(content || "").replace(/\s+/g, " ").trim()` - the collapse runs
before the trim there. -/
def makeSummary_v1 (content : List Char) : List Char :=
  let txt := trimWS (collapseWS content)
  if txt.isEmpty then []
  else if 140 < txt.length then txt.take 140 ++ ['.', '.', '.']
  else txt

/-! ### Normal forms under collapsing and trimming

A list is in summary normal form when no two adjacent characters are both
whitespace, every whitespace character is a space, and neither end is
whitespace.  `collapseWS` and `trimWS` establish the parts of this form and
fix every list already in it.  (Definitions only here; the theorems follow
after all definitions.) -/

/-- No two adjacent whitespace characters. -/
def noWSRun : List Char → Bool
  | [] => true
  | [_] => true
  | a :: b :: rest => !(isJsWS a && isJsWS b) && noWSRun (b :: rest)

/-- Every whitespace character is a plain space. -/
def wsIsSpace : List Char → Bool
  | [] => true
  | c :: rest => (!isJsWS c || c = ' ') && wsIsSpace rest

/-- The first character, if any, is not whitespace. -/
def headOkWS : List Char → Bool
  | [] => true
  | c :: _ => !isJsWS c

/-- The last character, if any, is not whitespace. -/
def lastOkWS : List Char → Bool
  | [] => true
  | [c] => !isJsWS c
  | _ :: b :: rest => lastOkWS (b :: rest)

/-- The summary normal form: no whitespace runs, only plain spaces, and no
whitespace at either end. -/
def normedWS (l : List Char) : Bool :=
  noWSRun l && wsIsSpace l && headOkWS l && lastOkWS l

/-- The final step of `makeSummary`: empty stays empty, over 140 characters
is cut to 140 plus the three-dot marker. -/
def cut140 (txt : List Char) : List Char :=
  if txt.isEmpty then []
  else if 140 < txt.length then txt.take 140 ++ ['.', '.', '.']
  else txt

/-- `normalizeKB` of `server.js` (lines 270-272) and of the second app of
`part_004`: `String(articleNumber || "").trim().toUpperCase()`.  JS
`toUpperCase` is modelled by `Char.toUpper` (the identifiers the service
mints are ASCII). -/
def normalizeKB (s : List Char) : List Char := (trimWS s).map Char.toUpper

/-! ### The marker splitter

`splitByTaskType` splits on the regex
`/(?:^|\n)\s*(?:\d+\.\s*)?Task type:\s*/gi`.  The matcher below is that
regex specialised: a match is anchored at the start of the string or at a
newline (the newline is consumed), takes greedy whitespace, an optional
`digits.` group followed by more whitespace, the case-insensitive literal
`Task type:`, and trailing greedy whitespace.  Scanning is left to right;
after a match the scan resumes at the match end (`^` can never fire again,
so later matches always consume a newline).  The scan recursions carry a
fuel argument equal to the scanned suffix's length so that they stay
structural. -/

/-- The literal of the marker regex, lower-cased for the `i` flag. -/
def taskLit : List Char := "task type:".data

/-- Case-insensitive literal match: the remainder on success. -/
def matchLitCI : List Char → List Char → Option (List Char)
  | [], s => some s
  | _ :: _, [] => none
  | p :: ps, x :: xs => if p.toLower = x.toLower then matchLitCI ps xs else none

/-- The optional `\d+\.\s*` group of the marker regex. -/
def matchNumDot (s : List Char) : Option (List Char) :=
  let ds := s.takeWhile (fun c => c.isDigit)
  if ds.isEmpty then none
  else
    match s.drop ds.length with
    | c :: r => if c = '.' then some (trimLeft r) else none
    | [] => none

/-- The marker regex after its `(?:^|\n)` anchor: `\s*(?:\d+\.\s*)?` then
the case-insensitive literal then `\s*`.  When the optional group matches
but the literal after it fails, the engine backtracks to the plain-literal
attempt. -/
def matchAfterBoundary (s : List Char) : Option (List Char) :=
  let s1 := trimLeft s
  match matchNumDot s1 with
  | some s2 =>
    match matchLitCI taskLit s2 with
    | some r => some (trimLeft r)
    | none => (matchLitCI taskLit s1).map trimLeft
  | none => (matchLitCI taskLit s1).map trimLeft

/-- The scan of `String.prototype.split` past position 0: each further
match must consume a newline.  `acc` is the part under construction. -/
def splitAuxF : Nat → List Char → List Char → List (List Char)
  | 0, _, acc => [acc]
  | _ + 1, [], acc => [acc]
  | fuel + 1, c :: rest, acc =>
    if c = '\n' then
      match matchAfterBoundary rest with
      | some r => acc :: splitAuxF fuel r []
      | none => splitAuxF fuel rest (acc ++ [c])
    else splitAuxF fuel rest (acc ++ [c])

/-- `text.split(/(?:^|\n)\s*(?:\d+\.\s*)?Task type:\s*/gi)`. -/
def splitMarker (s : List Char) : List (List Char) :=
  match matchAfterBoundary s with
  | some r => [] :: splitAuxF r.length r []
  | none => splitAuxF s.length s []

/-- Count of marker matches found by the same scan past position 0. -/
def countAuxF : Nat → List Char → Nat
  | 0, _ => 0
  | _ + 1, [] => 0
  | fuel + 1, c :: rest =>
    if c = '\n' then
      match matchAfterBoundary rest with
      | some r => countAuxF fuel r + 1
      | none => countAuxF fuel rest
    else countAuxF fuel rest

/-- How many marker occurrences the split finds in `s`. -/
def countMarkers (s : List Char) : Nat :=
  match matchAfterBoundary s with
  | some r => countAuxF r.length r + 1
  | none => countAuxF s.length s

/-- Does the marker regex match anywhere past position 0? -/
def hasMarkerAux : List Char → Bool
  | [] => false
  | c :: rest => (c = '\n' && (matchAfterBoundary rest).isSome) || hasMarkerAux rest

/-- Does the marker regex match anywhere in `s`? -/
def hasMarker (s : List Char) : Bool :=
  (matchAfterBoundary s).isSome || hasMarkerAux s

/-- `block.split("\n")`. -/
def splitNL : List Char → List (List Char)
  | [] => [[]]
  | c :: rest =>
    if c = '\n' then [] :: splitNL rest
    else
      match splitNL rest with
      | [] => [[c]]
      | p :: ps => (c :: p) :: ps

/-- `titleLine.replace(/\.$/, "")`: drop one trailing period. -/
def dropDotEnd : List Char → List Char
  | [] => []
  | [c] => if c = '.' then [] else [c]
  | c :: b :: rest => c :: dropDotEnd (b :: rest)

/-- One split section: a title line and the lines after it. -/
structure Section where
  title : List Char
  content : List Char
deriving DecidableEq

/-- The per-block body of the canonical `splitByTaskType` (`server.js`
lines 287-293): lines are trimmed, the first line (or `"Untitled"`) loses a
trailing period and becomes the title, the rest joined by newlines is the
content. -/
def mkSectionBlock (block : List Char) : Section :=
  let lines := (splitNL block).map trimWS
  let t0 :=
    match lines with
    | [] => "Untitled".data
    | l :: _ => if l.isEmpty then "Untitled".data else l
  { title := trimWS (dropDotEnd t0),
    content := trimWS (List.intercalate ['\n'] (lines.drop 1)) }

/-- `splitByTaskType` of `server.js` lines 280-294 (same in the second app
of `part_004`, lines 385-404): trims the input, splits on the marker,
drops the preamble part, trims each block and keeps only non-empty blocks. -/
def splitByTaskType (text : List Char) : List Section :=
  let raw := trimWS text
  if raw.isEmpty then []
  else
    let parts := splitMarker raw
    let blocks := ((parts.drop 1).map trimWS).filter (fun b => !b.isEmpty)
    blocks.map mkSectionBlock

/-- The per-part body of `splitByTaskType` in the first app of `part_004`
(lines 73-79): the part is trimmed and split into lines; the first line
trimmed (or `"Untitled"`) is the title; no block is ever dropped. -/
def mkSectionPart (p : List Char) : Section :=
  let lines := splitNL (trimWS p)
  let t0 :=
    match lines with
    | [] => []
    | l :: _ => trimWS l
  { title := if t0.isEmpty then "Untitled".data else t0,
    content := trimWS (List.intercalate ['\n'] (lines.drop 1)) }

/-- `splitByTaskType` of the first app of `part_004` (lines 71-80): splits
the raw text and maps every part after the preamble, keeping empty ones. -/
def splitByTaskType_v1 (text : List Char) : List Section :=
  ((splitMarker text).drop 1).map mkSectionPart

/-! ### The article store

Articles live in a Mongo collection with a unique index on
`articleNumber`; the collection is modelled as a list, the unique index as
a membership test, and each route body as a pure function. -/

/-- An Article document (the timestamps are reduced to `updatedAt`, the
only one any route reads). -/
structure Article where
  articleNumber : List Char
  title : List Char
  summary : List Char
  content : List Char
  tags : List (List Char)
  status : List Char
  updatedAt : Nat
deriving DecidableEq

/-- The `"published"` status literal. -/
def pubStatus : List Char := "published".data

/-- A request body for the article routes: every field may be absent. -/
structure Payload where
  articleNumber : Option (List Char)
  title : Option (List Char)
  summary : Option (List Char)
  content : Option (List Char)
  tags : Option (List (List Char))
  status : Option (List Char)
deriving DecidableEq

/-- JS `value || fallback` on a possibly absent string: absent or empty
falls back. -/
def orElseStr (v : Option (List Char)) (d : List Char) : List Char :=
  match v with
  | none => d
  | some s => if s.isEmpty then d else s

/-- Mongo `$set` of the update route of `server.js` (lines 398-417): the
route deletes `articleNumber` from the update set first, so only the other
five fields are written. -/
def applySet (a : Article) (p : Payload) : Article :=
  { a with
    title := p.title.getD a.title,
    summary := p.summary.getD a.summary,
    content := p.content.getD a.content,
    tags := p.tags.getD a.tags,
    status := p.status.getD a.status }

/-- Mongo `$set` of the update route of the first app of `part_004`
(lines 176-187): the whole request body is applied, `articleNumber`
included. -/
def applySet_v1 (a : Article) (p : Payload) : Article :=
  { applySet a p with
    articleNumber := p.articleNumber.getD a.articleNumber }

/-- `findOneAndUpdate`: rewrite the first document the test accepts,
returning the new store and the updated document. -/
def updateFirst (f : Article → Bool) (g : Article → Article) :
    List Article → List Article × Option Article
  | [] => ([], none)
  | a :: rest =>
    if f a then (g a :: rest, some (g a))
    else
      let r := updateFirst f g rest
      (a :: r.fst, r.snd)

/-- `PUT /api/kb/article/:articleNumber` of `server.js` (lines 398-417):
normalized lookup, `articleNumber` stripped from the update set. -/
def updateArticle (store : List Article) (q : List Char) (p : Payload) :
    List Article × Option Article :=
  updateFirst (fun a => a.articleNumber == normalizeKB q) (fun a => applySet a p) store

/-- `PUT /api/kb/article/:kb` of the first app of `part_004` (lines
176-187): raw lookup, the whole body applied. -/
def updateArticle_v1 (store : List Article) (q : List Char) (p : Payload) :
    List Article × Option Article :=
  updateFirst (fun a => a.articleNumber == q) (fun a => applySet_v1 a p) store

/-- `findOneAndDelete`: remove the first document the test accepts. -/
def deleteFirst (f : Article → Bool) :
    List Article → List Article × Option Article
  | [] => ([], none)
  | a :: rest =>
    if f a then (rest, some a)
    else
      let r := deleteFirst f rest
      (a :: r.fst, r.snd)

/-- `DELETE /api/kb/article/:articleNumber` of `server.js` (lines
422-434). -/
def deleteArticle (store : List Article) (q : List Char) :
    List Article × Option Article :=
  deleteFirst (fun a => a.articleNumber == normalizeKB q) store

/-- `GET /api/kb/article/:articleNumber` of `server.js` (lines 333-348,
same as lines 87-103): `findOne({ status: "published", articleNumber })`
with the parameter normalized; `none` is the 404. -/
def getArticle (store : List Article) (q : List Char) : Option Article :=
  store.find? (fun a => a.status == pubStatus && a.articleNumber == normalizeKB q)

/-- `GET /api/kb/article/:kb` of the first app of `part_004` (lines
135-144): same query, parameter used raw. -/
def getArticleRaw (store : List Article) (q : List Char) : Option Article :=
  store.find? (fun a => a.status == pubStatus && a.articleNumber == q)

/-- The response of a create route. -/
inductive CreateResp where
  | badRequest
  | dup
  | created (a : Article)
  | failed
deriving DecidableEq

/-- `POST /api/kb/article` of `server.js` (lines 368-393): requires a
non-empty normalized number and a title, builds the document, and a unique
index collision is answered with 409 (`dup`) - distinct from the generic
500 (`failed`). -/
def createArticle (store : List Article) (p : Payload) : List Article × CreateResp :=
  let num := normalizeKB (p.articleNumber.getD [])
  if num.isEmpty then (store, .badRequest)
  else if (p.title.getD []).isEmpty then (store, .badRequest)
  else
    let doc : Article :=
      { articleNumber := num,
        title := trimWS (p.title.getD []),
        summary :=
          match p.summary with
          | some s => if s.isEmpty then makeSummary (p.content.getD []) else trimWS s
          | none => makeSummary (p.content.getD []),
        content := p.content.getD [],
        tags := p.tags.getD [],
        status := orElseStr p.status pubStatus,
        updatedAt := 0 }
    if num ∈ store.map (fun a => a.articleNumber) then (store, .dup)
    else (store ++ [doc], .created doc)

/-- Mongo string comparison (binary collation): is `a` less than `b`? -/
def strLtB : List Char → List Char → Bool
  | [], [] => false
  | [], _ :: _ => true
  | _ :: _, [] => false
  | a :: as, b :: bs => if a < b then true else if b < a then false else strLtB as bs

/-- `findOne().sort({ articleNumber: -1 })` over a list of numbers: the
lexicographically greatest, `none` on an empty collection. -/
def maxString (l : List (List Char)) : Option (List Char) :=
  l.foldl
    (fun acc s =>
      match acc with
      | none => some s
      | some m => if strLtB m s then some s else acc)
    none

/-- JS `parseInt` as the service meets it: leading whitespace skipped,
then a non-empty run of decimal digits, else NaN (`none`). -/
def parseIntJS (s : List Char) : Option Nat :=
  let t := trimLeft s
  let ds := t.takeWhile (fun c => c.isDigit)
  if ds.isEmpty then none
  else some (ds.foldl (fun n c => n * 10 + (c.toNat - 48)) 0)

/-- `s.replace(pat, "")` for a plain-string pattern: remove the first
occurrence. -/
def removeFirst (pat : List Char) : List Char → List Char
  | [] => []
  | c :: rest =>
    if pat.isPrefixOf (c :: rest) then (c :: rest).drop pat.length
    else c :: removeFirst pat rest

/-- `getNextKB` of the first app of `part_004` (lines 86-95) over the
stored numbers: read the lexicographically greatest `articleNumber`, parse
the digits after the first `KB-`, add one.  NOT atomic: the read and the
later insert are separate steps. -/
def getNextKBIds (ids : List (List Char)) : List Char :=
  match maxString ids with
  | none => "KB-1001".data
  | some m =>
    match parseIntJS (removeFirst "KB-".data m) with
    | none => "KB-NaN".data
    | some n => "KB-".data ++ Nat.toDigits 10 (n + 1)

/-- `getNextKB` over a store. -/
def getNextKB (store : List Article) : List Char :=
  getNextKBIds (store.map (fun a => a.articleNumber))

/-- `POST /api/kb/article` of the first app of `part_004` (lines 149-171):
auto-numbered create; every insert error, a duplicate key included, is
caught as the generic 500 `failed`. -/
def createAuto (store : List Article) (p : Payload) : List Article × CreateResp :=
  if (p.title.getD []).isEmpty then (store, .badRequest)
  else
    let kb := getNextKB store
    let doc : Article :=
      { articleNumber := kb,
        title := p.title.getD [],
        summary := orElseStr p.summary (makeSummary (p.content.getD [])),
        content := p.content.getD [],
        tags := p.tags.getD [],
        status := orElseStr p.status pubStatus,
        updatedAt := 0 }
    if kb ∈ store.map (fun a => a.articleNumber) then (store, .failed)
    else (store ++ [doc], .created doc)

/-- The per-item normalization of the bulk route of `server.js` (lines
447-454).  Line 449 is `it.title.trim()` with no guard: the route throws
before any insert when a title is absent, so `bulkInsert` only applies
this map once every item carries a title; a title that trims to the empty
string is kept here and rejected by the schema's required-title validation
at insert time (`insertManyU`). -/
def normalizeItem (p : Payload) : Article :=
  { articleNumber := normalizeKB (p.articleNumber.getD []),
    title := trimWS (p.title.getD []),
    summary :=
      match p.summary with
      | some s => if s.isEmpty then makeSummary (p.content.getD []) else trimWS s
      | none => makeSummary (p.content.getD []),
    content := p.content.getD [],
    tags := p.tags.getD [],
    status := orElseStr p.status pubStatus,
    updatedAt := 0 }

/-- `insertMany(docs, { ordered: false })`: every document that passes the
schema's required-title validation (title non-empty) and whose number is
free (also against the ones inserted earlier in the batch) is inserted;
the others are rejected and counted as errors.  Returns the new store, the
inserted documents in order, and the error count. -/
def insertManyU (store : List Article) : List Article → List Article × List Article × Nat
  | [] => (store, [], 0)
  | d :: rest =>
    if d.title.isEmpty ∨ d.articleNumber ∈ store.map (fun a => a.articleNumber) then
      let r := insertManyU store rest
      (r.fst, r.snd.fst, r.snd.snd + 1)
    else
      let r := insertManyU (store ++ [d]) rest
      (r.fst, d :: r.snd.fst, r.snd.snd)

/-- The response of a bulk route. -/
inductive BulkResp where
  | badRequest
  | ok (n : Nat)
  | failed
deriving DecidableEq

/-- `POST /api/kb/bulk` of `server.js` (lines 439-462): empty batch is
400; if any item lacks a title, `it.title.trim()` (line 449) throws inside
the normalization map before `insertMany` runs, so the catch answers the
generic 500 with nothing inserted.  Otherwise `insertMany` with
`ordered:false` keeps the valid non-colliding inserts either way, but any
insert error rejects the promise and the route answers the generic 500
`failed` instead of the inserted count.  (The bulk route of the second app
of `part_004`, lines 524-548, coerces a missing title to the empty string
instead of throwing; the empty title is then rejected by the required
validation at insert.) -/
def bulkInsert (store : List Article) (items : List Payload) : List Article × BulkResp :=
  if items.isEmpty then (store, .badRequest)
  else if items.any (fun it => it.title.isNone) then (store, .failed)
  else
    let docs := items.map normalizeItem
    let r := insertManyU store docs
    if r.snd.snd = 0 then (r.fst, .ok r.snd.fst.length) else (r.fst, .failed)

/-- The documents the import route builds: section `i` is numbered
`normalizeKB(prefix + (start + i))` with a generated summary. -/
def importDocs (text : List Char) (start : Nat) (pfx : List Char)
    (tg : Option (List (List Char))) : List Article :=
  (splitByTaskType text).enum.map
    (fun pr =>
      ({ articleNumber := normalizeKB (pfx ++ Nat.toDigits 10 (start + pr.fst)),
         title := pr.snd.title,
         summary := makeSummary pr.snd.content,
         content := pr.snd.content,
         tags := tg.getD ["bulk".data],
         status := pubStatus,
         updatedAt := 0 } : Article))

/-- `POST /api/kb/import-text` of `server.js` (lines 467-501): split the
text, number the sections from `startNumber || 7001` with prefix
`kbPrefix || "KB-"`, normalize each number, insert unordered. -/
def importText (store : List Article) (text : List Char) (startNumber : Option Nat)
    (kbPfx : Option (List Char)) (tags : Option (List (List Char))) :
    List Article × BulkResp :=
  if text.isEmpty then (store, .badRequest)
  else if (splitByTaskType text).isEmpty then (store, .badRequest)
  else
    let docs := importDocs text (startNumber.getD 7001) (orElseStr kbPfx "KB-".data) tags
    let r := insertManyU store docs
    if r.snd.snd = 0 then (r.fst, .ok r.snd.fst.length) else (r.fst, .failed)

/-! ### The search route -/

/-- The sort key of the canonical search (`server.js` lines 308-328):
descending text score, then most recently updated first.  The text score
Mongo computes is abstracted as a function of the article. -/
def searchRel (score : Article → Nat) (a b : Article) : Prop :=
  score b < score a ∨ (score a = score b ∧ b.updatedAt ≤ a.updatedAt)

instance (score : Article → Nat) : DecidableRel (searchRel score) := fun a b => by
  unfold searchRel
  infer_instance

instance (score : Article → Nat) : IsTotal Article (searchRel score) where
  total := by
    intro a b
    unfold searchRel
    omega

instance (score : Article → Nat) : IsTrans Article (searchRel score) where
  trans := by
    intro a b c hab hbc
    unfold searchRel at hab hbc ⊢
    omega

/-- Does `p` match a prefix of `s`, case-insensitively? -/
def matchesPrefixCI : List Char → List Char → Bool
  | [], _ => true
  | _ :: _, [] => false
  | p :: ps, x :: xs => (p.toLower = x.toLower) && matchesPrefixCI ps xs

/-- `new RegExp(q, "i").test(s)` for a metacharacter-free `q`:
case-insensitive substring. -/
def containsCI (p s : List Char) : Bool :=
  matchesPrefixCI p s ||
    match s with
    | [] => false
    | _ :: xs => containsCI p xs

/-- The search filter: `status: "published"` and (`articleNumber` matches
the query pattern or the text index matches, the latter abstracted as
`tMatch`). -/
def searchMatches (tMatch : Article → Bool) (q : List Char) (a : Article) : Bool :=
  (a.status == pubStatus) && (containsCI q a.articleNumber || tMatch a)

/-- `GET /api/kb/search` of `server.js` lines 308-328 (same in the second
app of `part_004`): blank query answers `[]`; otherwise filter published
matches, sort by score then `updatedAt` descending, cap at 50. -/
def searchArticles (score : Article → Nat) (tMatch : Article → Bool)
    (store : List Article) (q : List Char) : List Article :=
  let q1 := trimWS q
  if q1.isEmpty then []
  else (List.insertionSort (searchRel score) (store.filter (searchMatches tMatch q1))).take 50

/-- `GET /api/kb/search` of the first app of `part_004` (lines 109-122):
the same filter and cap, but no sort at all - the store's order is kept. -/
def searchArticles_v1 (tMatch : Article → Bool)
    (store : List Article) (q : List Char) : List Article :=
  let q1 := trimWS q
  if q1.isEmpty then []
  else (store.filter (searchMatches tMatch q1)).take 50

/-! ### The allocation race

`getNextKB` is a read (find the maximum, add one) followed later by the
insert that `Article.create` performs: two separate store operations.  Two
concurrent requests are modelled as two clients that each run the read
step then the write step, under a schedule that picks who moves next. -/

/-- The shared store (its numbers) and each client's read value and
returned identifier. -/
structure RaceState where
  ids : List (List Char)
  locA : Option (List Char)
  locB : Option (List Char)
  resA : Option (List Char)
  resB : Option (List Char)
deriving DecidableEq

/-- One step of client A: first `getNextKB` (the read), then the insert
(the write) returning the identifier. -/
def raceStepA (st : RaceState) : RaceState :=
  match st.locA, st.resA with
  | none, _ => { st with locA := some (getNextKBIds st.ids) }
  | some kb, none => { st with ids := st.ids ++ [kb], resA := some kb }
  | some _, some _ => st

/-- One step of client B. -/
def raceStepB (st : RaceState) : RaceState :=
  match st.locB, st.resB with
  | none, _ => { st with locB := some (getNextKBIds st.ids) }
  | some kb, none => { st with ids := st.ids ++ [kb], resB := some kb }
  | some _, some _ => st

/-- Run a schedule: `false` steps A, `true` steps B. -/
def runRace : List Bool → RaceState → RaceState
  | [], st => st
  | b :: rest, st => runRace rest (if b then raceStepB st else raceStepA st)

/-- Every stored identifier is a fixed point of `normalizeKB`
(trim-then-uppercase). -/
def IdInv (store : List Article) : Prop :=
  ∀ a ∈ store, normalizeKB a.articleNumber = a.articleNumber

instance (store : List Article) : Decidable (IdInv store) := by
  unfold IdInv
  infer_instance

/-- The race's initial state: `KB-1001` is stored, neither client has
moved. -/
def raceInit : RaceState :=
  { ids := ["KB-1001".data], locA := none, locB := none, resA := none, resB := none }

/-! ### Concrete inputs for the witnesses and counterexamples -/

/-- The two-marker example of the spec. -/
def exC6 : List Char := "Task type: A\nbody1\nTask type: B\nbody2".data

/-- A document with preamble text before the first marker. -/
def exPre : List Char := "preamble line\nTask type: A\nbody1".data

/-- Two heading-only markers: both sections have empty content. -/
def exHeadOnly : List Char := "Task type: A\nTask type: B".data

/-- A document whose second marker has an all-empty block. -/
def exTrailingMarker : List Char := "Task type: A\nbody\nTask type:".data

/-- The section `{title: "A", content: "body1"}`. -/
def secA : Section := { title := "A".data, content := "body1".data }

/-- The section `{title: "B", content: "body2"}`. -/
def secB : Section := { title := "B".data, content := "body2".data }

/-- A stored published article `KB-1001`. -/
def artKB1001 : Article :=
  { articleNumber := "KB-1001".data, title := "Reset".data, summary := [],
    content := [], tags := [], status := pubStatus, updatedAt := 0 }

/-- A published article updated at time 1. -/
def artLow : Article :=
  { articleNumber := "KB-1".data, title := "low".data, summary := [],
    content := [], tags := [], status := pubStatus, updatedAt := 1 }

/-- A published article updated at time 2. -/
def artHigh : Article :=
  { articleNumber := "KB-2".data, title := "high".data, summary := [],
    content := [], tags := [], status := pubStatus, updatedAt := 2 }

/-- A stored draft article `KB-2000`. -/
def artDraft : Article :=
  { articleNumber := "KB-2000".data, title := "Hidden".data, summary := [],
    content := [], tags := [], status := "draft".data, updatedAt := 0 }

/-- A store whose lexicographic maximum `KB-999` precedes `KB-1000`
numerically. -/
def store999 : List Article :=
  [{ articleNumber := "KB-999".data, title := "A".data, summary := [],
     content := [], tags := [], status := pubStatus, updatedAt := 0 },
   { articleNumber := "KB-1000".data, title := "B".data, summary := [],
     content := [], tags := [], status := pubStatus, updatedAt := 0 }]

/-- A payload with only a title. -/
def payloadTitleOnly : Payload :=
  { articleNumber := none, title := some "T".data, summary := none,
    content := none, tags := none, status := none }

/-- An update payload that only changes the title. -/
def payloadNewTitle : Payload :=
  { articleNumber := none, title := some "New title".data, summary := none,
    content := none, tags := none, status := none }

/-- An update payload that tries to overwrite the identifier. -/
def payloadHijack : Payload :=
  { articleNumber := some "KB-9999".data, title := none, summary := none,
    content := none, tags := none, status := none }

/-- A create payload for a fresh identifier supplied in lower case. -/
def payloadCreate77 : Payload :=
  { articleNumber := some " kb-77 ".data, title := some "Y".data,
    summary := none, content := none, tags := none, status := none }

/-- A create payload whose identifier normalizes to the stored `KB-1001`. -/
def payloadDupCreate : Payload :=
  { articleNumber := some " kb-1001".data, title := some "X".data,
    summary := none, content := none, tags := none, status := none }

/-- A bulk payload numbered `KB-<n>` with a fixed title. -/
def mkBulkPayload (n : Nat) : Payload :=
  { articleNumber := some ("KB-".data ++ Nat.toDigits 10 n),
    title := some "T".data, summary := some "s".data, content := none,
    tags := none, status := none }

/-- Ten bulk items, the first of which collides with `artKB1001` after
normalization (`KB-1001`). -/
def tenItems : List Payload :=
  [mkBulkPayload 1001, mkBulkPayload 1, mkBulkPayload 2, mkBulkPayload 3,
   mkBulkPayload 4, mkBulkPayload 5, mkBulkPayload 6, mkBulkPayload 7,
   mkBulkPayload 8, mkBulkPayload 9]

theorem collapseWS_ne_nil : ∀ l : List Char, l ≠ [] → collapseWS l ≠ [] := by
  intro l h
  match l with
  | [c] => simp [collapseWS]; split; simp; simp
  | a :: b :: rest =>
    simp only [collapseWS]
    split
    · exact collapseWS_ne_nil (b :: rest) (by simp)
    · simp

theorem collapseWS_head (b : Char) (rest : List Char) (hb : isJsWS b = false) :
    ∃ t, collapseWS (b :: rest) = b :: t := by
  match rest with
  | [] => exact ⟨[], by simp [collapseWS, hb]⟩
  | c :: r => exact ⟨collapseWS (c :: r), by simp [collapseWS, hb]⟩

theorem collapseWS_noWSRun : ∀ l : List Char, noWSRun (collapseWS l) = true := by
  intro l
  match l with
  | [] => rfl
  | [c] =>
    simp only [collapseWS]
    split <;> rfl
  | a :: b :: rest =>
    simp only [collapseWS]
    split
    · exact collapseWS_noWSRun (b :: rest)
    · rename_i hab
      have hrec := collapseWS_noWSRun (b :: rest)
      by_cases hb : isJsWS b
      · have ha : isJsWS a = false := by
          cases h : isJsWS a <;> simp_all
        simp only [ha]
        -- head of collapseWS (b :: rest) may be a space; the emitted
        -- character a is not whitespace, so no run forms.
        cases hcb : collapseWS (b :: rest) with
        | nil => simp [noWSRun]
        | cons x t => simp [noWSRun, ha, hrec, ← hcb]
      · obtain ⟨t, ht⟩ := collapseWS_head b rest (by simp_all)
        rw [ht]
        rw [ht] at hrec
        by_cases ha : isJsWS a
        · simp only [ha, if_pos]
          simp [noWSRun, hrec]
          simp_all
        · simp only [ha]
          simp [noWSRun, hrec]
          simp_all

theorem collapseWS_wsIsSpace : ∀ l : List Char, wsIsSpace (collapseWS l) = true := by
  intro l
  match l with
  | [] => rfl
  | [c] =>
    simp only [collapseWS]
    split <;> simp_all [wsIsSpace]
  | a :: b :: rest =>
    simp only [collapseWS]
    have hrec := collapseWS_wsIsSpace (b :: rest)
    split
    · exact hrec
    · by_cases ha : isJsWS a <;> simp [wsIsSpace, ha, hrec]

theorem collapseWS_fix : ∀ l : List Char, noWSRun l = true → wsIsSpace l = true →
    collapseWS l = l := by
  intro l hrun hsp
  match l with
  | [] => rfl
  | [c] =>
    simp only [collapseWS]
    by_cases hc : isJsWS c
    · have : c = ' ' := by simp [wsIsSpace, hc] at hsp; simp_all
      simp [hc, this]
    · simp [hc]
  | a :: b :: rest =>
    have hab : (isJsWS a && isJsWS b) = false := by
      simp [noWSRun] at hrun; cases h1 : isJsWS a <;> cases h2 : isJsWS b <;> simp_all
    have hrun' : noWSRun (b :: rest) = true := by simp [noWSRun] at hrun; simp_all
    have hsp' : wsIsSpace (b :: rest) = true := by
      simp only [wsIsSpace, Bool.and_eq_true] at hsp ⊢
      exact hsp.2
    simp only [collapseWS, hab, if_neg, Bool.false_eq_true, not_false_iff]
    rw [collapseWS_fix (b :: rest) hrun' hsp']
    by_cases ha : isJsWS a
    · have : a = ' ' := by simp [wsIsSpace, ha] at hsp; simp_all
      simp [ha, this]
    · simp [ha]

theorem lastOkWS_cons (c : Char) (l : List Char) (h : l ≠ []) :
    lastOkWS (c :: l) = lastOkWS l := by
  match l with
  | [] => exact absurd rfl h
  | b :: rest => rfl

theorem noWSRun_tail : ∀ (c : Char) (l : List Char),
    noWSRun (c :: l) = true → noWSRun l = true := by
  intro c l h
  match l with
  | [] => rfl
  | b :: rest => simp [noWSRun] at h; simp [h]

theorem wsIsSpace_tail (c : Char) (l : List Char)
    (h : wsIsSpace (c :: l) = true) : wsIsSpace l = true := by
  simp [wsIsSpace] at h; simp [h]

theorem trimLeft_headOk : ∀ l : List Char, headOkWS (trimLeft l) = true := by
  intro l
  match l with
  | [] => rfl
  | c :: rest =>
    by_cases hc : isJsWS c
    · simpa [trimLeft, List.dropWhile, hc] using trimLeft_headOk rest
    · simp [trimLeft, List.dropWhile, hc, headOkWS]

theorem trimRight_cons (c : Char) (rest : List Char) :
    trimRight (c :: rest) =
      match trimRight rest with
      | [] => if isJsWS c = true then [] else [c]
      | r => c :: r := rfl

theorem trimLeft_fix (l : List Char) (h : headOkWS l = true) : trimLeft l = l := by
  match l with
  | [] => rfl
  | c :: rest =>
    simp [headOkWS] at h
    simp [trimLeft, List.dropWhile, h]

theorem trimLeft_noWSRun : ∀ l : List Char, noWSRun l = true →
    noWSRun (trimLeft l) = true := by
  intro l h
  match l with
  | [] => exact h
  | c :: rest =>
    by_cases hc : isJsWS c
    · simpa [trimLeft, List.dropWhile, hc] using
        trimLeft_noWSRun rest (noWSRun_tail c rest h)
    · simpa [trimLeft, List.dropWhile, hc] using h

theorem trimLeft_wsIsSpace : ∀ l : List Char, wsIsSpace l = true →
    wsIsSpace (trimLeft l) = true := by
  intro l h
  match l with
  | [] => exact h
  | c :: rest =>
    by_cases hc : isJsWS c
    · simpa [trimLeft, List.dropWhile, hc] using
        trimLeft_wsIsSpace rest (wsIsSpace_tail c rest h)
    · simpa [trimLeft, List.dropWhile, hc] using h

theorem trimRight_decomp : ∀ l : List Char,
    ∃ w, l = trimRight l ++ w ∧ w.all isJsWS = true := by
  intro l
  match l with
  | [] => exact ⟨[], rfl, rfl⟩
  | c :: rest =>
    obtain ⟨w, hw, hall⟩ := trimRight_decomp rest
    rw [trimRight_cons]
    cases htr : trimRight rest with
    | nil =>
      rw [htr] at hw
      simp only [List.nil_append] at hw
      by_cases hc : isJsWS c
      · refine ⟨c :: w, ?_, ?_⟩
        · simp [hc, ← hw]
        · simp [List.all_cons, hc, hall]
      · exact ⟨w, by simp [hc, ← hw], hall⟩
    | cons x xs =>
      refine ⟨w, ?_, hall⟩
      rw [htr] at hw
      simpa using hw

theorem trimRight_lastOk : ∀ l : List Char, lastOkWS (trimRight l) = true := by
  intro l
  match l with
  | [] => rfl
  | c :: rest =>
    have ih := trimRight_lastOk rest
    rw [trimRight_cons]
    cases htr : trimRight rest with
    | nil =>
      by_cases hc : isJsWS c <;> simp [hc, lastOkWS]
    | cons x xs =>
      rw [htr] at ih
      rwa [lastOkWS_cons c (x :: xs) (by simp)]

theorem trimRight_fix : ∀ l : List Char, lastOkWS l = true → trimRight l = l := by
  intro l h
  match l with
  | [] => rfl
  | [c] =>
    simp [lastOkWS] at h
    simp [trimRight_cons, trimRight, h]
  | c :: b :: rest =>
    rw [lastOkWS_cons c (b :: rest) (by simp)] at h
    have ih := trimRight_fix (b :: rest) h
    rw [trimRight_cons, ih]

theorem noWSRun_append_left : ∀ x y : List Char,
    noWSRun (x ++ y) = true → noWSRun x = true := by
  intro x y h
  match x with
  | [] => rfl
  | [c] => rfl
  | a :: b :: rest =>
    simp only [List.cons_append, noWSRun, Bool.and_eq_true] at h ⊢
    exact ⟨h.1, noWSRun_append_left (b :: rest) y h.2⟩

theorem wsIsSpace_append_left : ∀ x y : List Char,
    wsIsSpace (x ++ y) = true → wsIsSpace x = true := by
  intro x y h
  match x with
  | [] => rfl
  | c :: rest =>
    simp only [List.cons_append, wsIsSpace, Bool.and_eq_true] at h ⊢
    exact ⟨h.1, wsIsSpace_append_left rest y h.2⟩

theorem trimRight_noWSRun (l : List Char) (h : noWSRun l = true) :
    noWSRun (trimRight l) = true := by
  obtain ⟨w, hw, -⟩ := trimRight_decomp l
  exact noWSRun_append_left _ w (hw ▸ h)

theorem trimRight_wsIsSpace (l : List Char) (h : wsIsSpace l = true) :
    wsIsSpace (trimRight l) = true := by
  obtain ⟨w, hw, -⟩ := trimRight_decomp l
  exact wsIsSpace_append_left _ w (hw ▸ h)

theorem trimRight_headOk : ∀ l : List Char, headOkWS l = true →
    headOkWS (trimRight l) = true := by
  intro l h
  match l with
  | [] => rfl
  | c :: rest =>
    simp only [headOkWS] at h
    rw [trimRight_cons]
    cases htr : trimRight rest with
    | nil =>
      have hc : isJsWS c = false := by simp_all
      simp [hc, headOkWS]
    | cons x xs => simpa [headOkWS] using h

theorem collapseWS_headOk (l : List Char) (h : headOkWS l = true) :
    headOkWS (collapseWS l) = true := by
  match l with
  | [] => rfl
  | c :: rest =>
    simp [headOkWS] at h
    obtain ⟨t, ht⟩ := collapseWS_head c rest (by simp [h])
    simp [ht, headOkWS, h]

theorem collapseWS_lastOk : ∀ l : List Char, lastOkWS l = true →
    lastOkWS (collapseWS l) = true := by
  intro l h
  match l with
  | [] => rfl
  | [c] =>
    simp [lastOkWS] at h
    simp [collapseWS, h, lastOkWS]
  | a :: b :: rest =>
    rw [lastOkWS_cons a (b :: rest) (by simp)] at h
    have ih := collapseWS_lastOk (b :: rest) h
    have hne := collapseWS_ne_nil (b :: rest) (by simp)
    simp only [collapseWS]
    split
    · exact ih
    · rwa [lastOkWS_cons _ _ hne]

theorem trimWS_headOk (l : List Char) : headOkWS (trimWS l) = true :=
  trimRight_headOk _ (trimLeft_headOk l)

theorem trimWS_lastOk (l : List Char) : lastOkWS (trimWS l) = true :=
  trimRight_lastOk _

theorem trimWS_fix (l : List Char) (h1 : headOkWS l = true)
    (h2 : lastOkWS l = true) : trimWS l = l := by
  unfold trimWS
  rw [trimLeft_fix l h1, trimRight_fix l h2]

theorem normed_collapse_trim (x : List Char) :
    normedWS (collapseWS (trimWS x)) = true := by
  have h1 := trimLeft_noWSRun x
  have h2 := trimLeft_wsIsSpace x
  simp only [normedWS, Bool.and_eq_true]
  refine ⟨⟨⟨collapseWS_noWSRun _, collapseWS_wsIsSpace _⟩, ?_⟩, ?_⟩
  · exact collapseWS_headOk _ (trimWS_headOk x)
  · exact collapseWS_lastOk _ (trimWS_lastOk x)

theorem normed_trim_collapse (x : List Char) :
    normedWS (trimWS (collapseWS x)) = true := by
  simp only [normedWS, Bool.and_eq_true]
  refine ⟨⟨⟨?_, ?_⟩, trimWS_headOk _⟩, trimWS_lastOk _⟩
  · exact trimRight_noWSRun _ (trimLeft_noWSRun _ (collapseWS_noWSRun x))
  · exact trimRight_wsIsSpace _ (trimLeft_wsIsSpace _ (collapseWS_wsIsSpace x))

theorem normed_fix_ct (t : List Char) (h : normedWS t = true) :
    collapseWS (trimWS t) = t := by
  simp only [normedWS, Bool.and_eq_true] at h
  rw [trimWS_fix t h.1.2 h.2]
  exact collapseWS_fix t h.1.1.1 h.1.1.2

theorem normed_fix_tc (t : List Char) (h : normedWS t = true) :
    trimWS (collapseWS t) = t := by
  simp only [normedWS, Bool.and_eq_true] at h
  rw [collapseWS_fix t h.1.1.1 h.1.1.2]
  exact trimWS_fix t h.1.2 h.2

theorem makeSummary_eq (x : List Char) :
    makeSummary x = cut140 (collapseWS (trimWS x)) := rfl

theorem makeSummary_v1_eq (x : List Char) :
    makeSummary_v1 x = cut140 (trimWS (collapseWS x)) := rfl

theorem noWSRun_take : ∀ (l : List Char) (n : Nat),
    noWSRun l = true → noWSRun (l.take n) = true := by
  intro l n h
  match l, n with
  | _, 0 => simp [noWSRun]
  | [], _ => simpa using h
  | [c], n + 1 => simpa [List.take] using h
  | a :: b :: rest, 1 => simp [noWSRun]
  | a :: b :: rest, n + 2 =>
    simp only [noWSRun, Bool.and_eq_true] at h
    have ih := noWSRun_take (b :: rest) (n + 1) h.2
    simp only [List.take, noWSRun, Bool.and_eq_true]
    exact ⟨h.1, ih⟩

theorem wsIsSpace_take : ∀ (l : List Char) (n : Nat),
    wsIsSpace l = true → wsIsSpace (l.take n) = true := by
  intro l n h
  match l, n with
  | _, 0 => simp [wsIsSpace]
  | [], _ => simpa using h
  | c :: rest, n + 1 =>
    simp only [wsIsSpace, Bool.and_eq_true] at h
    have ih := wsIsSpace_take rest n h.2
    simp only [List.take, wsIsSpace, Bool.and_eq_true]
    exact ⟨h.1, ih⟩

theorem wsIsSpace_append : ∀ x y : List Char,
    wsIsSpace x = true → wsIsSpace y = true → wsIsSpace (x ++ y) = true := by
  intro x y hx hy
  match x with
  | [] => simpa using hy
  | c :: rest =>
    simp only [wsIsSpace, Bool.and_eq_true] at hx
    simp only [List.cons_append, wsIsSpace, Bool.and_eq_true]
    exact ⟨hx.1, wsIsSpace_append rest y hx.2 hy⟩

theorem noWSRun_append : ∀ x y : List Char, noWSRun x = true →
    noWSRun y = true → headOkWS y = true → noWSRun (x ++ y) = true := by
  intro x y hx hy hhy
  match x with
  | [] => simpa using hy
  | [c] =>
    match y with
    | [] => simpa using hx
    | d :: t =>
      simp only [headOkWS] at hhy
      simp only [List.cons_append, List.nil_append, noWSRun, Bool.and_eq_true]
      constructor
      · cases h : isJsWS c <;> simp [hhy]
      · exact hy
  | a :: b :: rest =>
    simp only [noWSRun, Bool.and_eq_true] at hx
    have ih := noWSRun_append (b :: rest) y hx.2 hy hhy
    simp only [List.cons_append, noWSRun, Bool.and_eq_true] at ih ⊢
    exact ⟨hx.1, ih⟩

theorem lastOk_append : ∀ x y : List Char, y ≠ [] →
    lastOkWS y = true → lastOkWS (x ++ y) = true := by
  intro x y hne hy
  match x with
  | [] => simpa using hy
  | c :: rest =>
    have ih := lastOk_append rest y hne hy
    rw [List.cons_append, lastOkWS_cons c (rest ++ y) (by simp [hne])]
    exact ih

theorem normed_cut140 (t : List Char) (h : normedWS t = true) :
    normedWS (cut140 t) = true := by
  unfold cut140
  by_cases he : t.isEmpty
  · simp [he]; rfl
  · simp only [he, if_neg, Bool.false_eq_true, not_false_iff]
    by_cases hl : 140 < t.length
    · simp only [hl, if_pos]
      simp only [normedWS, Bool.and_eq_true] at h ⊢
      refine ⟨⟨⟨?_, ?_⟩, ?_⟩, ?_⟩
      · exact noWSRun_append _ _ (noWSRun_take t 140 h.1.1.1) (by decide) (by decide)
      · exact wsIsSpace_append _ _ (wsIsSpace_take t 140 h.1.1.2) (by decide)
      · match t with
        | [] => simp at he
        | c :: rest =>
          simp only [List.take, List.cons_append, headOkWS]
          simpa [headOkWS] using h.1.2
      · exact lastOk_append _ _ (by simp) (by decide)
    · simpa [hl] using h

theorem cut140_idem (t : List Char) : cut140 (cut140 t) = cut140 t := by
  unfold cut140
  by_cases he : t.isEmpty
  · simp [he]
  · simp only [he, if_neg, Bool.false_eq_true, not_false_iff]
    by_cases hl : 140 < t.length
    · simp only [hl, if_pos]
      have hlen : (t.take 140).length = 140 := by
        simp [List.length_take, Nat.min_eq_left (Nat.le_of_lt hl)]
      have hne : (t.take 140 ++ ['.', '.', '.']).isEmpty = false := by
        simp [List.isEmpty_iff]
      have hlen2 : (t.take 140 ++ ['.', '.', '.']).length = 143 := by
        simp [List.length_append, hlen]
      simp only [hne, Bool.false_eq_true, not_false_iff, if_neg, hlen2]
      have h143 : (140 : Nat) < 143 := by decide
      simp only [h143, if_pos]
      have htake : (t.take 140 ++ ['.', '.', '.']).take 140 = t.take 140 := by
        rw [List.take_append_eq_append_take]
        simp [hlen, List.take_take]
      rw [htake]
    · simp [hl]

/-- Claim C5: `makeSummary` (both variants: trim-then-collapse of
`server.js` lines 274-278 / collapse-then-trim of `part_004` lines 65-69,
both with budget 140) is length-bounded by 140+3, idempotent, and maps the
empty string to the empty string. -/
theorem c5_makeSummary_idempotent_bounded :
    (∀ x : List Char, (makeSummary x).length ≤ 143) ∧
    (∀ x : List Char, makeSummary (makeSummary x) = makeSummary x) ∧
    makeSummary [] = [] ∧
    (∀ x : List Char, (makeSummary_v1 x).length ≤ 143) ∧
    (∀ x : List Char, makeSummary_v1 (makeSummary_v1 x) = makeSummary_v1 x) ∧
    makeSummary_v1 [] = [] := by
  have hlen : ∀ t : List Char, (cut140 t).length ≤ 143 := by
    intro t
    unfold cut140
    by_cases he : t.isEmpty
    · simp [he]
    · simp only [he, Bool.false_eq_true, not_false_iff, if_neg]
      by_cases hl : 140 < t.length
      · simp only [hl, if_pos, List.length_append, List.length_take]
        have : min 140 t.length = 140 := Nat.min_eq_left (Nat.le_of_lt hl)
        simp [this]
      · simp only [hl, Bool.false_eq_true, not_false_iff, if_neg]
        omega
  have hidem : ∀ t : List Char, normedWS t = true →
      cut140 (collapseWS (trimWS (cut140 t))) = cut140 t := by
    intro t ht
    rw [normed_fix_ct (cut140 t) (normed_cut140 t ht), cut140_idem]
  have hidem1 : ∀ t : List Char, normedWS t = true →
      cut140 (trimWS (collapseWS (cut140 t))) = cut140 t := by
    intro t ht
    rw [normed_fix_tc (cut140 t) (normed_cut140 t ht), cut140_idem]
  refine ⟨?_, ?_, rfl, ?_, ?_, rfl⟩
  · intro x; rw [makeSummary_eq]; exact hlen _
  · intro x
    rw [makeSummary_eq, makeSummary_eq x]
    exact hidem _ (normed_collapse_trim x)
  · intro x; rw [makeSummary_v1_eq]; exact hlen _
  · intro x
    rw [makeSummary_v1_eq, makeSummary_v1_eq x]
    exact hidem1 _ (normed_trim_collapse x)

/-! ### `toUpperCase` and `normalizeKB` -/

theorem toNat_ofNat_valid (n : Nat) (h : n.isValidChar) : (Char.ofNat n).toNat = n := by
  simp [Char.ofNat, dif_pos h, Char.ofNatAux, Char.toNat, UInt32.toNat, BitVec.toNat_ofNatLt]

theorem toUpper_toNat (c : Char) :
    (Char.toUpper c).toNat =
      if 97 ≤ c.toNat ∧ c.toNat ≤ 122 then c.toNat - 32 else c.toNat := by
  unfold Char.toUpper
  by_cases h : 97 ≤ c.toNat ∧ c.toNat ≤ 122
  · have hv : Nat.isValidChar (c.toNat - 32) := Or.inl (by omega)
    simp [h, toNat_ofNat_valid _ hv]
  · simp [h]

theorem toUpper_eq_self (c : Char) (h : ¬(97 ≤ c.toNat ∧ c.toNat ≤ 122)) :
    Char.toUpper c = c := by
  unfold Char.toUpper
  simp [h]

theorem toUpper_idem (c : Char) : Char.toUpper (Char.toUpper c) = Char.toUpper c := by
  apply toUpper_eq_self
  have h2 := toUpper_toNat c
  by_cases hc : 97 ≤ c.toNat ∧ c.toNat ≤ 122 <;> simp [hc] at h2 <;> omega

theorem isJsWS_false_of_toNat (c : Char) (h : 33 ≤ c.toNat) : isJsWS c = false := by
  simp only [isJsWS, Bool.or_eq_false_iff, decide_eq_false_iff_not]
  refine ⟨⟨⟨⟨⟨?_, ?_⟩, ?_⟩, ?_⟩, ?_⟩, ?_⟩ <;>
    (intro he; subst he; exact absurd h (by decide))

theorem isJsWS_toUpper (c : Char) : isJsWS (Char.toUpper c) = isJsWS c := by
  by_cases h : 97 ≤ c.toNat ∧ c.toNat ≤ 122
  · have h1 : (Char.toUpper c).toNat = c.toNat - 32 := by rw [toUpper_toNat]; simp [h]
    have hc : isJsWS c = false := isJsWS_false_of_toNat c (by omega)
    have hu : isJsWS (Char.toUpper c) = false :=
      isJsWS_false_of_toNat _ (by omega)
    rw [hc, hu]
  · rw [toUpper_eq_self c h]

theorem headOk_map_toUpper (l : List Char) :
    headOkWS (l.map Char.toUpper) = headOkWS l := by
  cases l with
  | nil => rfl
  | cons c rest => simp [headOkWS, isJsWS_toUpper]

theorem lastOk_map_toUpper : ∀ l : List Char,
    lastOkWS (l.map Char.toUpper) = lastOkWS l := by
  intro l
  match l with
  | [] => rfl
  | [c] => simp [lastOkWS, isJsWS_toUpper]
  | a :: b :: rest =>
    have ih := lastOk_map_toUpper (b :: rest)
    simpa [lastOkWS] using ih

theorem normalizeKB_idem (s : List Char) :
    normalizeKB (normalizeKB s) = normalizeKB s := by
  unfold normalizeKB
  have h1 : trimWS ((trimWS s).map Char.toUpper) = (trimWS s).map Char.toUpper :=
    trimWS_fix _ (by rw [headOk_map_toUpper]; exact trimWS_headOk s)
      (by rw [lastOk_map_toUpper]; exact trimWS_lastOk s)
  rw [h1, List.map_map]
  exact List.map_congr_left (fun a _ => toUpper_idem a)

/-! ### The update routes (claim C2) -/

theorem updateFirst_map_fst {α : Type} (f : Article → Bool) (g : Article → Article)
    (h : Article → α) (hg : ∀ a, h (g a) = h a) :
    ∀ store : List Article, ((updateFirst f g store).fst).map h = store.map h := by
  intro store
  induction store with
  | nil => rfl
  | cons a rest ih =>
    by_cases hf : f a
    · simp [updateFirst, hf, hg a]
    · simp [updateFirst, hf, ih]

theorem updateFirst_snd_mem (f : Article → Bool) (g : Article → Article) :
    ∀ (store : List Article) (a' : Article),
      (updateFirst f g store).snd = some a' → ∃ a ∈ store, a' = g a := by
  intro store
  induction store with
  | nil => intro a' h; simp [updateFirst] at h
  | cons a rest ih =>
    intro a' h
    by_cases hf : f a
    · simp [updateFirst, hf] at h
      exact ⟨a, by simp, h.symm⟩
    · simp [updateFirst, hf] at h
      obtain ⟨b, hb, hgb⟩ := ih a' h
      exact ⟨b, by simp [hb], hgb⟩

/-- Claim C2: the update route of `server.js` (lines 398-417) deletes
`articleNumber` from the update set, so no update call ever changes a
stored identifier, and the other supplied fields are all applied.  (The
claim as stated over every update route of the repository is refuted by
`c2_counterexample`: the route of `part_004` lines 176-187 `$set`s the raw
body.) -/
theorem c2_update_never_changes_identifier :
    (∀ (store : List Article) (q : List Char) (p : Payload),
      ((updateArticle store q p).fst).map (fun a => a.articleNumber) =
        store.map (fun a => a.articleNumber)) ∧
    (∀ (a : Article) (p : Payload), (applySet a p).articleNumber = a.articleNumber) ∧
    (∀ (store : List Article) (q : List Char) (p : Payload) (a' : Article),
      (updateArticle store q p).snd = some a' →
        ∃ a ∈ store, a' = applySet a p ∧ a'.articleNumber = a.articleNumber) ∧
    (∀ (a : Article) (p : Payload),
      (applySet a p).title = p.title.getD a.title ∧
      (applySet a p).summary = p.summary.getD a.summary ∧
      (applySet a p).content = p.content.getD a.content ∧
      (applySet a p).tags = p.tags.getD a.tags ∧
      (applySet a p).status = p.status.getD a.status) := by
  refine ⟨?_, ?_, ?_, ?_⟩
  · intro store q p
    unfold updateArticle
    exact updateFirst_map_fst (fun a => a.articleNumber == normalizeKB q)
      (fun a => applySet a p) (fun a => a.articleNumber) (fun a => rfl) store
  · intro a p; rfl
  · intro store q p a' h
    obtain ⟨a, ha, rfl⟩ := updateFirst_snd_mem _ _ store a' h
    exact ⟨a, ha, rfl, rfl⟩
  · intro a p
    exact ⟨rfl, rfl, rfl, rfl, rfl⟩

/-- Witness for C2: a concrete update resolves to the stored article and
keeps its identifier. -/
theorem c2_update_witness :
    ∃ a ∈ [artKB1001],
      applySet artKB1001 payloadNewTitle = applySet a payloadNewTitle ∧
        (applySet artKB1001 payloadNewTitle).articleNumber = a.articleNumber := by
  have h := c2_update_never_changes_identifier.2.2.1 [artKB1001] "kb-1001".data
    payloadNewTitle (applySet artKB1001 payloadNewTitle) (by decide)
  obtain ⟨a, ha, heq, hid⟩ := h
  exact ⟨a, ha, heq, hid⟩

/-- Counterexample for C2 as stated: the update route of the first app of
`part_004` (lines 176-187) applies a payload's `articleNumber`, so the
stored identifier changes. -/
theorem c2_counterexample :
    ((updateArticle_v1 [artKB1001] "KB-1001".data payloadHijack).fst).map
        (fun a => a.articleNumber) ≠
      [artKB1001].map (fun a => a.articleNumber) := by decide

/-! ### The create routes (claim C3) -/

/-- Claim C3 (amended): in the create route of `server.js` (lines 368-393)
a request whose normalized identifier already exists is answered with the
duplicate condition (HTTP 409, `CreateResp.dup` - a constructor distinct
from the generic 500 `CreateResp.failed`) and the store, the pre-existing
record included, is left unchanged.  (The auto-numbered create of
`part_004` lines 149-171 instead surfaces a duplicate as the generic 500:
`c3_counterexample`.) -/
theorem c3_create_duplicate_distinct (store : List Article) (p : Payload)
    (h1 : (normalizeKB (p.articleNumber.getD [])).isEmpty = false)
    (h2 : (p.title.getD []).isEmpty = false)
    (h3 : normalizeKB (p.articleNumber.getD []) ∈ store.map (fun a => a.articleNumber)) :
    createArticle store p = (store, CreateResp.dup) := by
  unfold createArticle
  simp [h1, h2, h3]

/-- Witness for C3: creating ` kb-1001` (normalizing to the stored
`KB-1001`) is answered with the duplicate condition, store unchanged. -/
theorem c3_create_witness :
    createArticle [artKB1001] payloadDupCreate = ([artKB1001], CreateResp.dup) :=
  c3_create_duplicate_distinct [artKB1001] payloadDupCreate (by decide) (by decide)
    (by decide)

/-- Counterexample for C3 as stated: in the auto-numbered create of
`part_004` (lines 149-171), with `KB-999` and `KB-1000` stored the
string-sorted maximum is `KB-999`, `getNextKB` mints the already existing
`KB-1000`, and the duplicate is surfaced as the generic 500 `failed`, not
as a distinct duplicate condition. -/
theorem c3_counterexample :
    getNextKB store999 ∈ store999.map (fun a => a.articleNumber) ∧
    createAuto store999 payloadTitleOnly = (store999, CreateResp.failed) := by decide

/-! ### The bulk route (claim C4) -/

theorem insertManyU_fst : ∀ (docs : List Article) (store : List Article),
    (insertManyU store docs).fst = store ++ (insertManyU store docs).snd.fst := by
  intro docs
  induction docs with
  | nil => intro store; simp [insertManyU]
  | cons d rest ih =>
    intro store
    by_cases hd : d.title = [] ∨ ∃ a ∈ store, a.articleNumber = d.articleNumber
    · simp [insertManyU, hd, ih store]
    · simp [insertManyU, hd, ih (store ++ [d])]

theorem insertManyU_count : ∀ (docs : List Article) (store : List Article),
    (insertManyU store docs).snd.fst.length + (insertManyU store docs).snd.snd =
      docs.length := by
  intro docs
  induction docs with
  | nil => intro store; simp [insertManyU]
  | cons d rest ih =>
    intro store
    by_cases hd : d.title = [] ∨ ∃ a ∈ store, a.articleNumber = d.articleNumber
    · simp [insertManyU, hd]
      have := ih store
      omega
    · simp [insertManyU, hd]
      have := ih (store ++ [d])
      omega

theorem insertManyU_mem : ∀ (docs : List Article) (store : List Article),
    (docs.map (fun a => a.articleNumber)).Nodup →
    ∀ d ∈ docs, d.title.isEmpty = false →
      d.articleNumber ∉ store.map (fun a => a.articleNumber) →
      d ∈ (insertManyU store docs).snd.fst := by
  intro docs
  induction docs with
  | nil => intro store _ d hd; simp at hd
  | cons d0 rest ih =>
    intro store hnd d hd htitle hfree
    have hnd' : (rest.map (fun a => a.articleNumber)).Nodup := by
      simp [List.nodup_cons] at hnd; exact hnd.2
    rcases List.mem_cons.mp hd with rfl | hdrest
    · have hcond : ¬(d.title = [] ∨ ∃ a ∈ store, a.articleNumber = d.articleNumber) := by
        rintro (he | ⟨a, ha, hna⟩)
        · rw [he] at htitle
          simp at htitle
        · exact hfree (List.mem_map.mpr ⟨a, ha, hna⟩)
      simp [insertManyU, hcond]
    · by_cases h0 : d0.title = [] ∨ ∃ a ∈ store, a.articleNumber = d0.articleNumber
      · have := ih store hnd' d hdrest htitle hfree
        simpa [insertManyU, h0] using this
      · have hne : d.articleNumber ≠ d0.articleNumber := by
          simp [List.nodup_cons] at hnd
          exact hnd.1 d hdrest
        have hfree' : d.articleNumber ∉ (store ++ [d0]).map (fun a => a.articleNumber) := by
          simp [List.map_append]
          exact ⟨by simpa using hfree, hne⟩
        have := List.mem_cons_of_mem d0 (ih (store ++ [d0]) hnd' d hdrest htitle hfree')
        simpa [insertManyU, h0] using this

/-- Claim C4 (amended): for a batch whose items each carry a title that is
non-empty after trimming - a missing title makes `it.title.trim()` on
`server.js` line 449 throw, answering the generic 500 with nothing
inserted, and an empty title fails the schema's required validation and is
never inserted - the bulk route (`insertMany` with `ordered:false`)
inserts every article of the batch whose identifier does not collide, the
batch is not aborted, and the inserted count plus the error count is the
batch size; but whenever any item collides the response is the generic
500 `failed`, and the inserted count is only reported when no item
collides.  (That the response does not report the count 9 for a 10-item
batch with one collision is `c4_counterexample`.) -/
theorem c4_bulk_keeps_noncolliding (store : List Article) (items : List Payload)
    (hne : items.isEmpty = false)
    (htitle : ∀ it ∈ items, it.title.isNone = false ∧
      (trimWS (it.title.getD [])).isEmpty = false)
    (hnd : ((items.map normalizeItem).map (fun a => a.articleNumber)).Nodup) :
    (bulkInsert store items).fst =
      store ++ (insertManyU store (items.map normalizeItem)).snd.fst ∧
    (insertManyU store (items.map normalizeItem)).snd.fst.length +
      (insertManyU store (items.map normalizeItem)).snd.snd = items.length ∧
    (∀ d ∈ items.map normalizeItem,
      d.articleNumber ∉ store.map (fun a => a.articleNumber) →
        d ∈ (insertManyU store (items.map normalizeItem)).snd.fst) ∧
    ((insertManyU store (items.map normalizeItem)).snd.snd = 0 →
      (bulkInsert store items).snd =
        BulkResp.ok (insertManyU store (items.map normalizeItem)).snd.fst.length) ∧
    ((insertManyU store (items.map normalizeItem)).snd.snd ≠ 0 →
      (bulkInsert store items).snd = BulkResp.failed) := by
  have hguard : items.any (fun it => it.title.isNone) = false := by
    cases hg : items.any (fun it => it.title.isNone) with
    | false => rfl
    | true =>
      exfalso
      obtain ⟨it, hit, hnone⟩ := List.any_eq_true.mp hg
      rw [(htitle it hit).1] at hnone
      exact Bool.noConfusion hnone
  have hdtitle : ∀ d ∈ items.map normalizeItem, d.title.isEmpty = false := by
    intro d hd
    obtain ⟨p, hp, rfl⟩ := List.mem_map.mp hd
    exact (htitle p hp).2
  refine ⟨?_, ?_, ?_, ?_, ?_⟩
  · unfold bulkInsert
    simp only [hne, hguard, Bool.false_eq_true, not_false_iff, if_neg]
    split <;> simp [insertManyU_fst]
  · simpa using insertManyU_count (items.map normalizeItem) store
  · intro d hd hfree
    exact insertManyU_mem (items.map normalizeItem) store hnd d hd (hdtitle d hd) hfree
  · intro h0
    simp [bulkInsert, hne, hguard, h0]
  · intro h0
    simp [bulkInsert, hne, hguard, h0]

/-- Witness for C4: the ten-item batch (every title present and non-empty)
against the store holding `KB-1001` satisfies the hypotheses, and the nine
non-colliding items are all inserted. -/
theorem c4_bulk_witness :
    (bulkInsert [artKB1001] tenItems).fst =
      [artKB1001] ++ (insertManyU [artKB1001] (tenItems.map normalizeItem)).snd.fst :=
  (c4_bulk_keeps_noncolliding [artKB1001] tenItems (by decide) (by decide) (by decide)).1

/-- Counterexample for C4 as stated: ten items with one collision insert
exactly nine (the store grows from 1 to 10), but the response is the
generic 500 `failed` - the count 9 is not reported. -/
theorem c4_counterexample :
    (bulkInsert [artKB1001] tenItems).snd = BulkResp.failed ∧
    ((bulkInsert [artKB1001] tenItems).fst).length = 10 := by decide

/-! ### The get-one route (claim C10) -/

/-- Claim C10: the get-one routes (`server.js` lines 333-348 with the
normalized parameter; `part_004` lines 135-144 with the raw parameter)
query `findOne({ status: "published", articleNumber })`: they succeed
exactly when a published article with the requested number is stored, so
every stored draft article is answered 404 (`none`). -/
theorem c10_get_published_only :
    (∀ (store : List Article) (q : List Char) (a : Article),
      getArticle store q = some a →
        a ∈ store ∧ a.status = pubStatus ∧ a.articleNumber = normalizeKB q) ∧
    (∀ (store : List Article) (q : List Char),
      (getArticle store q).isSome ↔
        ∃ a ∈ store, a.articleNumber = normalizeKB q ∧ a.status = pubStatus) ∧
    (∀ (store : List Article) (q : List Char) (a : Article),
      getArticleRaw store q = some a →
        a ∈ store ∧ a.status = pubStatus ∧ a.articleNumber = q) ∧
    (∀ (store : List Article) (q : List Char),
      (getArticleRaw store q).isSome ↔
        ∃ a ∈ store, a.articleNumber = q ∧ a.status = pubStatus) := by
  refine ⟨?_, ?_, ?_, ?_⟩
  · intro store q a h
    have hmem := List.mem_of_find?_eq_some h
    have hp := List.find?_some h
    simp only [Bool.and_eq_true, beq_iff_eq] at hp
    exact ⟨hmem, hp.1, hp.2⟩
  · intro store q
    unfold getArticle
    rw [List.find?_isSome]
    constructor
    · rintro ⟨a, ha, hp⟩
      simp only [Bool.and_eq_true, beq_iff_eq] at hp
      exact ⟨a, ha, hp.2, hp.1⟩
    · rintro ⟨a, ha, hn, hs⟩
      exact ⟨a, ha, by simp [hn, hs]⟩
  · intro store q a h
    have hmem := List.mem_of_find?_eq_some h
    have hp := List.find?_some h
    simp only [Bool.and_eq_true, beq_iff_eq] at hp
    exact ⟨hmem, hp.1, hp.2⟩
  · intro store q
    unfold getArticleRaw
    rw [List.find?_isSome]
    constructor
    · rintro ⟨a, ha, hp⟩
      simp only [Bool.and_eq_true, beq_iff_eq] at hp
      exact ⟨a, ha, hp.2, hp.1⟩
    · rintro ⟨a, ha, hn, hs⟩
      exact ⟨a, ha, by simp [hn, hs]⟩

/-- Witness for C10: with a draft and a published article stored, the
differently-cased request ` kb-1001` resolves to the published one. -/
theorem c10_get_witness :
    (getArticle [artDraft, artKB1001] " kb-1001".data).isSome :=
  (c10_get_published_only.2.1 [artDraft, artKB1001] " kb-1001".data).mpr
    ⟨artKB1001, by decide, by decide, by decide⟩

/-! ### Identifier normalization (claim C9) -/

theorem insertManyU_snd_subset : ∀ (docs : List Article) (store : List Article),
    ∀ d ∈ (insertManyU store docs).snd.fst, d ∈ docs := by
  intro docs
  induction docs with
  | nil => intro store d hd; simp [insertManyU] at hd
  | cons d0 rest ih =>
    intro store d hd
    by_cases h0 : d0.title = [] ∨ ∃ a ∈ store, a.articleNumber = d0.articleNumber
    · simp [insertManyU, h0] at hd
      exact List.mem_cons_of_mem d0 (ih store d hd)
    · simp [insertManyU, h0] at hd
      rcases hd with rfl | hd'
      · exact List.mem_cons_self d rest
      · exact List.mem_cons_of_mem d0 (ih (store ++ [d0]) d hd')

theorem insertManyU_inv (docs : List Article) (store : List Article)
    (hst : IdInv store)
    (hdocs : ∀ d ∈ docs, normalizeKB d.articleNumber = d.articleNumber) :
    IdInv (insertManyU store docs).fst := by
  rw [insertManyU_fst]
  intro a ha
  rcases List.mem_append.mp ha with h | h
  · exact hst a h
  · exact hdocs a (insertManyU_snd_subset docs store a h)

theorem updateFirst_inv (p : Payload) (f : Article → Bool) :
    ∀ store : List Article, IdInv store →
      IdInv ((updateFirst f (fun a => applySet a p) store).fst) := by
  intro store
  induction store with
  | nil => intro h; exact h
  | cons a rest ih =>
    intro h
    have ha := h a (List.mem_cons_self a rest)
    have hrest : IdInv rest := fun b hb => h b (List.mem_cons_of_mem a hb)
    by_cases hf : f a
    · simp only [updateFirst, hf, if_pos]
      intro b hb
      rcases List.mem_cons.mp hb with rfl | hb'
      · exact ha
      · exact hrest b hb'
    · simp only [updateFirst, hf, if_neg, Bool.false_eq_true, not_false_iff]
      intro b hb
      rcases List.mem_cons.mp hb with rfl | hb'
      · exact ha
      · exact ih hrest b hb'

theorem deleteFirst_subset (f : Article → Bool) :
    ∀ store : List Article, ∀ a ∈ (deleteFirst f store).fst, a ∈ store := by
  intro store
  induction store with
  | nil => intro a ha; simp [deleteFirst] at ha
  | cons b rest ih =>
    intro a ha
    by_cases hf : f b
    · simp only [deleteFirst, hf, if_pos] at ha
      exact List.mem_cons_of_mem b ha
    · simp only [deleteFirst, hf, if_neg, Bool.false_eq_true, not_false_iff] at ha
      rcases List.mem_cons.mp ha with rfl | ha'
      · exact List.mem_cons_self a rest
      · exact List.mem_cons_of_mem b (ih a ha')

/-- Claim C9: `normalizeKB` is idempotent; the create, bulk-insert and
text-import routes of `server.js` store only identifiers that are fixed
points of trim-then-uppercase (preserved by update and delete as well);
and the get, update and delete routes resolve any two request parameters
with the same normalization to the same result. -/
theorem c9_identifiers_normalized :
    (∀ s : List Char, normalizeKB (normalizeKB s) = normalizeKB s) ∧
    (∀ (store : List Article) (p : Payload),
      IdInv store → IdInv (createArticle store p).fst) ∧
    (∀ (store : List Article) (items : List Payload),
      IdInv store → IdInv (bulkInsert store items).fst) ∧
    (∀ (store : List Article) (text : List Char) (sn : Option Nat)
      (kp : Option (List Char)) (tg : Option (List (List Char))),
      IdInv store → IdInv (importText store text sn kp tg).fst) ∧
    (∀ (store : List Article) (q : List Char) (p : Payload),
      IdInv store → IdInv (updateArticle store q p).fst) ∧
    (∀ (store : List Article) (q : List Char),
      IdInv store → IdInv (deleteArticle store q).fst) ∧
    (∀ (store : List Article) (q1 q2 : List Char),
      normalizeKB q1 = normalizeKB q2 →
        getArticle store q1 = getArticle store q2 ∧
        (∀ p, updateArticle store q1 p = updateArticle store q2 p) ∧
        deleteArticle store q1 = deleteArticle store q2) := by
  refine ⟨normalizeKB_idem, ?_, ?_, ?_, ?_, ?_, ?_⟩
  · intro store p h
    unfold createArticle
    by_cases h1 : (normalizeKB (p.articleNumber.getD [])).isEmpty
    · simpa [h1] using h
    · by_cases h2 : (p.title.getD []).isEmpty
      · simpa [h1, h2] using h
      · by_cases h3 : normalizeKB (p.articleNumber.getD []) ∈
            store.map (fun a => a.articleNumber)
        · simpa [h1, h2, h3] using h
        · simp only [h1, h2, h3, Bool.false_eq_true, not_false_iff, if_neg]
          intro a ha
          rcases List.mem_append.mp ha with h' | h'
          · exact h a h'
          · rcases List.mem_singleton.mp h' with rfl
            exact normalizeKB_idem _
  · intro store items h
    unfold bulkInsert
    by_cases h1 : items.isEmpty
    · simpa [h1] using h
    · simp only [h1, Bool.false_eq_true, not_false_iff, if_neg]
      by_cases hg : items.any (fun it => it.title.isNone)
      · simpa [hg] using h
      · simp only [hg, Bool.false_eq_true, not_false_iff, if_neg]
        have hinv := insertManyU_inv (items.map normalizeItem) store h ?_
        · split <;> simpa using hinv
        · intro d hd
          obtain ⟨p, -, rfl⟩ := List.mem_map.mp hd
          exact normalizeKB_idem _
  · intro store text sn kp tg h
    have hdocs : ∀ d ∈ importDocs text (sn.getD 7001) (orElseStr kp "KB-".data) tg,
        normalizeKB d.articleNumber = d.articleNumber := by
      intro d hd
      obtain ⟨pr, -, rfl⟩ := List.mem_map.mp hd
      exact normalizeKB_idem _
    have hinv := insertManyU_inv _ store h hdocs
    unfold importText
    by_cases h1 : text.isEmpty
    · simpa [h1] using h
    · simp only [h1, Bool.false_eq_true, not_false_iff, if_neg]
      by_cases h2 : (splitByTaskType text).isEmpty
      · simpa [h2] using h
      · simp only [h2, Bool.false_eq_true, not_false_iff, if_neg]
        split <;> simpa using hinv
  · intro store q p h
    exact updateFirst_inv p _ store h
  · intro store q h
    intro a ha
    exact h a (deleteFirst_subset _ store a ha)
  · intro store q1 q2 hq
    refine ⟨?_, ?_, ?_⟩
    · unfold getArticle; rw [hq]
    · intro p; unfold updateArticle; rw [hq]
    · unfold deleteArticle; rw [hq]

/-- Witness for C9: a lower-cased create against the demo store keeps the
invariant. -/
theorem c9_witness : IdInv (createArticle [artKB1001] payloadCreate77).fst :=
  c9_identifiers_normalized.2.1 [artKB1001] payloadCreate77 (by decide)

/-! ### The search route (claim C8) -/

/-- Claim C8 (amended): for a query that is non-blank after trimming, the
canonical search (`server.js` lines 308-328, with Mongo's text score
abstracted as `score` and the text-index match as `tMatch`) returns only
stored published articles, sorted by descending score with descending
`updatedAt` as the tie-break, capped at 50.  The search of the first app
of `part_004` (lines 109-122) filters and caps identically but applies no
sort (`c8_counterexample`). -/
theorem c8_search_published_sorted_capped (score : Article → Nat)
    (tMatch : Article → Bool) (store : List Article) (q : List Char)
    (hq : (trimWS q).isEmpty = false) :
    (∀ a ∈ searchArticles score tMatch store q, a ∈ store ∧ a.status = pubStatus) ∧
    List.Sorted (searchRel score) (searchArticles score tMatch store q) ∧
    (searchArticles score tMatch store q).length ≤ 50 ∧
    (∀ a ∈ searchArticles_v1 tMatch store q, a ∈ store ∧ a.status = pubStatus) ∧
    (searchArticles_v1 tMatch store q).length ≤ 50 := by
  refine ⟨?_, ?_, ?_, ?_, ?_⟩
  · intro a ha
    unfold searchArticles at ha
    simp only [hq, Bool.false_eq_true, not_false_iff, if_neg] at ha
    have h1 := List.mem_of_mem_take ha
    rw [List.mem_insertionSort] at h1
    have h2 := List.mem_filter.mp h1
    have h3 := h2.2
    simp only [searchMatches, Bool.and_eq_true, beq_iff_eq] at h3
    exact ⟨h2.1, h3.1⟩
  · unfold searchArticles
    simp only [hq, Bool.false_eq_true, not_false_iff, if_neg]
    exact (List.sorted_insertionSort (searchRel score) _).sublist
      (List.take_sublist _ _)
  · unfold searchArticles
    simp only [hq, Bool.false_eq_true, not_false_iff, if_neg]
    rw [List.length_take]
    exact min_le_left _ _
  · intro a ha
    unfold searchArticles_v1 at ha
    simp only [hq, Bool.false_eq_true, not_false_iff, if_neg] at ha
    have h1 := List.mem_of_mem_take ha
    have h2 := List.mem_filter.mp h1
    have h3 := h2.2
    simp only [searchMatches, Bool.and_eq_true, beq_iff_eq] at h3
    exact ⟨h2.1, h3.1⟩
  · unfold searchArticles_v1
    simp only [hq, Bool.false_eq_true, not_false_iff, if_neg]
    rw [List.length_take]
    exact min_le_left _ _

/-- Witness for C8: a concrete two-article search is sorted by the key. -/
theorem c8_search_witness :
    List.Sorted (searchRel (fun a => a.updatedAt))
      (searchArticles (fun a => a.updatedAt) (fun _ => true) [artLow, artHigh] "KB".data) :=
  (c8_search_published_sorted_capped (fun a => a.updatedAt) (fun _ => true)
    [artLow, artHigh] "KB".data (by decide)).2.1

/-- Counterexample for C8 as stated: the search of the first app of
`part_004` returns the matching published articles in store order, which
here is not descending by score - the claimed ordering does not hold for
that route. -/
theorem c8_counterexample :
    searchArticles_v1 (fun _ => true) [artLow, artHigh] "KB".data = [artLow, artHigh] ∧
    ¬ List.Sorted (searchRel (fun a => a.updatedAt)) [artLow, artHigh] := by
  constructor
  · decide
  · intro h
    have := List.rel_of_sorted_cons h artHigh (by decide)
    revert this
    decide

/-! ### The allocation race (claim C1) -/

/-- Claim C1 fails on the code: `getNextKB` (`part_004` lines 86-95) is a
separate read (find the string-maximum, add one) followed by the insert,
not an atomic increment-and-fetch.  Under the interleaving read-A, read-B,
write-A, write-B from a store holding `KB-1001`, both callers read the
same maximum, both are handed `KB-1002`, and the store ends with that
number twice: the returned identifiers are neither pairwise distinct nor a
contiguous run.  (The `Counter` model the repository defines for this is
never used.) -/
theorem c1_allocation_race :
    (runRace [false, true, false, true] raceInit).resA = some "KB-1002".data ∧
    (runRace [false, true, false, true] raceInit).resB = some "KB-1002".data ∧
    (runRace [false, true, false, true] raceInit).ids =
      ["KB-1001".data, "KB-1002".data, "KB-1002".data] := by decide

/-! ### The marker matcher under whitespace padding (for claims C6, C7)

Trimming the input cannot create a marker: a match of the trimmed text
transfers to the padded text.  The lemmas walk the matcher through an
all-whitespace prefix or suffix. -/

theorem drop_takeWhile_length (p : Char → Bool) :
    ∀ l : List Char, l.drop (l.takeWhile p).length = l.dropWhile p := by
  intro l
  induction l with
  | nil => rfl
  | cons c rest ih =>
    by_cases hc : p c
    · simp [List.takeWhile_cons, List.dropWhile_cons, hc, ih]
    · simp [List.takeWhile_cons, List.dropWhile_cons, hc]

theorem matchLitCI_ne_nil : ∀ (pat s r : List Char), pat ≠ [] →
    matchLitCI pat s = some r → s ≠ [] := by
  intro pat s r hp h
  match pat, s with
  | [], _ => exact absurd rfl hp
  | p :: ps, [] => simp [matchLitCI] at h
  | p :: ps, x :: xs => simp

theorem matchLitCI_append : ∀ (pat s w r : List Char),
    matchLitCI pat s = some r → matchLitCI pat (s ++ w) = some (r ++ w) := by
  intro pat
  induction pat with
  | nil =>
    intro s w r h
    simp [matchLitCI] at h
    simp [matchLitCI, h]
  | cons p ps ih =>
    intro s w r h
    match s with
    | [] => simp [matchLitCI] at h
    | x :: xs =>
      simp only [matchLitCI] at h ⊢
      by_cases hx : p.toLower = x.toLower
      · simp only [hx, if_pos] at h ⊢
        exact ih xs w r h
      · simp [hx] at h

theorem trimLeft_append_of_ne_nil (s w : List Char) (h : trimLeft s ≠ []) :
    trimLeft (s ++ w) = trimLeft s ++ w := by
  unfold trimLeft at h ⊢
  rw [List.dropWhile_append]
  simp only [List.isEmpty_iff]
  rw [if_neg h]

theorem trimLeft_append_ws (w t : List Char) (hw : ∀ c ∈ w, isJsWS c = true) :
    trimLeft (w ++ t) = trimLeft t := by
  unfold trimLeft
  exact List.dropWhile_append_of_pos hw

theorem matchAB_of_trimLeft_nil (s : List Char) (h : trimLeft s = []) :
    matchAfterBoundary s = none := by
  unfold matchAfterBoundary
  rw [h]
  rfl

theorem matchNumDot_append_ws (s w s2 : List Char)
    (h : matchNumDot s = some s2) (h2 : s2 ≠ []) :
    matchNumDot (s ++ w) = some (s2 ++ w) := by
  simp only [matchNumDot] at h ⊢
  by_cases hds : (s.takeWhile (fun c => c.isDigit)).isEmpty
  · simp [hds] at h
  · simp only [hds, Bool.false_eq_true, not_false_iff, if_neg] at h
    rw [drop_takeWhile_length (fun c => c.isDigit) s] at h
    cases hdrop : s.dropWhile (fun c => c.isDigit) with
    | nil => rw [hdrop] at h; simp at h
    | cons c r =>
      rw [hdrop] at h
      by_cases hc : c = '.'
      · simp only [hc, if_pos] at h
        have hne : ¬(s.takeWhile (fun c => c.isDigit)).length = s.length := by
          intro hlen
          have : s.drop s.length = s.dropWhile (fun c => c.isDigit) := by
            rw [← hlen]
            exact drop_takeWhile_length _ s
          rw [List.drop_length, hdrop] at this
          exact List.noConfusion this
        have htake : (s ++ w).takeWhile (fun c => c.isDigit) =
            s.takeWhile (fun c => c.isDigit) := by
          rw [List.takeWhile_append, if_neg hne]
        have hlt : (s.takeWhile (fun c => c.isDigit)).length ≤ s.length := by
          have h1 : ¬s.length ≤ (s.takeWhile (fun c => c.isDigit)).length := by
            intro hle
            have : s.drop (s.takeWhile (fun c => c.isDigit)).length = [] :=
              List.drop_eq_nil_of_le hle
            rw [drop_takeWhile_length, hdrop] at this
            exact List.noConfusion this
          omega
        have hdrop2 : (s ++ w).drop (s.takeWhile (fun c => c.isDigit)).length =
            ('.' :: r) ++ w := by
          rw [List.drop_append_eq_append_drop, Nat.sub_eq_zero_of_le hlt,
            List.drop_zero, drop_takeWhile_length, hdrop, hc]
        have hs2 : trimLeft r = s2 := Option.some.inj h
        rw [htake]
        simp only [hds, Bool.false_eq_true, not_false_iff, if_neg, hdrop2,
          List.cons_append]
        simp only [if_pos]
        rw [trimLeft_append_of_ne_nil r w (by rw [hs2]; exact h2), hs2]
      · simp [hc] at h

theorem matchAB_append_ws (s w : List Char) (_hw : ∀ c ∈ w, isJsWS c = true)
    (h : (matchAfterBoundary s).isSome = true) :
    (matchAfterBoundary (s ++ w)).isSome = true := by
  by_cases hnil : trimLeft s = []
  · rw [matchAB_of_trimLeft_nil s hnil] at h
    simp at h
  · have hsw : trimLeft (s ++ w) = trimLeft s ++ w := trimLeft_append_of_ne_nil s w hnil
    simp only [matchAfterBoundary] at h ⊢
    rw [hsw]
    cases hnum : matchNumDot (trimLeft s) with
    | none =>
      simp only [hnum] at h
      cases hlit : matchLitCI taskLit (trimLeft s) with
      | none => simp [hlit] at h
      | some r =>
        have hlit2 := matchLitCI_append taskLit (trimLeft s) w r hlit
        cases hnum2 : matchNumDot (trimLeft s ++ w) with
        | none => simp [hlit2]
        | some s2' =>
          cases hlit3 : matchLitCI taskLit s2' with
          | none => simp [hlit3, hlit2]
          | some r' => simp [hlit3]
    | some s2 =>
      simp only [hnum] at h
      cases hlit : matchLitCI taskLit s2 with
      | none =>
        simp only [hlit] at h
        cases hlitf : matchLitCI taskLit (trimLeft s) with
        | none => simp [hlitf] at h
        | some r =>
          have hlit2 := matchLitCI_append taskLit (trimLeft s) w r hlitf
          cases hnum2 : matchNumDot (trimLeft s ++ w) with
          | none => simp [hlit2]
          | some s2' =>
            cases hlit3 : matchLitCI taskLit s2' with
            | none => simp [hlit3, hlit2]
            | some r' => simp [hlit3]
      | some r =>
        have hs2ne : s2 ≠ [] := matchLitCI_ne_nil taskLit s2 r (by decide) hlit
        have hnum2 := matchNumDot_append_ws (trimLeft s) w s2 hnum hs2ne
        have hlit2 := matchLitCI_append taskLit s2 w r hlit
        simp [hnum2, hlit2]

theorem matchAB_prepend_ws (w t : List Char) (hw : ∀ c ∈ w, isJsWS c = true) :
    matchAfterBoundary (w ++ t) = matchAfterBoundary t := by
  simp only [matchAfterBoundary]
  rw [trimLeft_append_ws w t hw]

theorem hasMarkerAux_cons (c : Char) (t : List Char) (h : hasMarkerAux t = true) :
    hasMarkerAux (c :: t) = true := by
  simp [hasMarkerAux, h]

theorem hasMarkerAux_prepend : ∀ (w t : List Char), hasMarkerAux t = true →
    hasMarkerAux (w ++ t) = true := by
  intro w t h
  induction w with
  | nil => simpa using h
  | cons c rest ih => exact hasMarkerAux_cons c _ ih

theorem hasMarkerAux_append_ws : ∀ (s w : List Char), (∀ c ∈ w, isJsWS c = true) →
    hasMarkerAux s = true → hasMarkerAux (s ++ w) = true := by
  intro s w hw h
  induction s with
  | nil => simp [hasMarkerAux] at h
  | cons c rest ih =>
    simp only [hasMarkerAux, Bool.or_eq_true, Bool.and_eq_true,
      decide_eq_true_eq] at h ⊢
    rcases h with ⟨hc, hsome⟩ | haux
    · exact Or.inl ⟨hc, matchAB_append_ws rest w hw hsome⟩
    · exact Or.inr (ih haux)

theorem mem_takeWhile_ws : ∀ s : List Char, ∀ c ∈ s.takeWhile isJsWS, isJsWS c = true := by
  intro s
  induction s with
  | nil => intro c hc; simp at hc
  | cons a rest ih =>
    intro c hc
    by_cases ha : isJsWS a
    · rw [List.takeWhile_cons, if_pos ha] at hc
      rcases List.mem_cons.mp hc with rfl | hc'
      · exact ha
      · exact ih c hc'
    · rw [List.takeWhile_cons, if_neg ha] at hc
      simp at hc

theorem hasMarker_trimLeft (s : List Char) (h : hasMarker (trimLeft s) = true) :
    hasMarker s = true := by
  have hdecomp : s = s.takeWhile isJsWS ++ trimLeft s :=
    (List.takeWhile_append_dropWhile isJsWS s).symm
  have hws := mem_takeWhile_ws s
  simp only [hasMarker, Bool.or_eq_true] at h ⊢
  rcases h with htop | haux
  · left
    rw [hdecomp, matchAB_prepend_ws _ _ hws]
    exact htop
  · right
    rw [hdecomp]
    exact hasMarkerAux_prepend _ _ haux

theorem hasMarker_trimRight (s : List Char) (h : hasMarker (trimRight s) = true) :
    hasMarker s = true := by
  obtain ⟨w, hw, hall⟩ := trimRight_decomp s
  have hws : ∀ c ∈ w, isJsWS c = true := by
    intro c hc
    exact List.all_eq_true.mp hall c hc
  simp only [hasMarker, Bool.or_eq_true] at h ⊢
  rcases h with htop | haux
  · left
    rw [hw]
    exact matchAB_append_ws _ _ hws htop
  · right
    rw [hw]
    exact hasMarkerAux_append_ws _ _ hws haux

theorem hasMarker_trim_false (s : List Char) (h : hasMarker s = false) :
    hasMarker (trimWS s) = false := by
  cases hval : hasMarker (trimWS s) with
  | false => rfl
  | true =>
    exfalso
    unfold trimWS at hval
    have h1 : hasMarker (trimLeft s) = true := hasMarker_trimRight (trimLeft s) hval
    have h2 := hasMarker_trimLeft s h1
    rw [h] at h2
    exact Bool.noConfusion h2

theorem splitAuxF_no_marker : ∀ (fuel : Nat) (s acc : List Char), s.length ≤ fuel →
    hasMarkerAux s = false → splitAuxF fuel s acc = [acc ++ s] := by
  intro fuel
  induction fuel with
  | zero =>
    intro s acc hlen hm
    have hs : s = [] := List.eq_nil_of_length_eq_zero (Nat.le_zero.mp hlen)
    subst hs
    simp [splitAuxF]
  | succ n ih =>
    intro s acc hlen hm
    match s with
    | [] => simp [splitAuxF]
    | c :: rest =>
      simp only [hasMarkerAux, Bool.or_eq_false_iff] at hm
      have hlen' : rest.length ≤ n := by
        simpa using Nat.le_of_succ_le_succ hlen
      by_cases hc : c = '\n'
      · have hnone : matchAfterBoundary rest = none := by
          cases hab : matchAfterBoundary rest with
          | none => rfl
          | some r =>
            exfalso
            have := hm.1
            rw [hab] at this
            simp [hc] at this
        simp only [splitAuxF, if_pos hc, hnone]
        rw [ih rest (acc ++ [c]) hlen' hm.2]
        simp
      · simp only [splitAuxF, if_neg hc]
        rw [ih rest (acc ++ [c]) hlen' hm.2]
        simp

theorem splitMarker_no_marker (s : List Char) (h : hasMarker s = false) :
    splitMarker s = [s] := by
  simp only [hasMarker, Bool.or_eq_false_iff] at h
  have h1 : matchAfterBoundary s = none := by
    cases hab : matchAfterBoundary s with
    | none => rfl
    | some r => rw [hab] at h; simp at h
  unfold splitMarker
  rw [h1, splitAuxF_no_marker s.length s [] (Nat.le_refl _) h.2]
  simp

theorem splitAuxF_length : ∀ (fuel : Nat) (s acc : List Char),
    (splitAuxF fuel s acc).length = countAuxF fuel s + 1 := by
  intro fuel
  induction fuel with
  | zero => intro s acc; simp [splitAuxF, countAuxF]
  | succ n ih =>
    intro s acc
    match s with
    | [] => simp [splitAuxF, countAuxF]
    | c :: rest =>
      by_cases hc : c = '\n'
      · simp only [splitAuxF, countAuxF, if_pos hc]
        cases hab : matchAfterBoundary rest with
        | some r => simp [ih]
        | none => simp [ih]
      · simp only [splitAuxF, countAuxF, if_neg hc]
        exact ih rest (acc ++ [c])

theorem splitMarker_length (s : List Char) :
    (splitMarker s).length = countMarkers s + 1 := by
  unfold splitMarker countMarkers
  cases hab : matchAfterBoundary s with
  | some r => simp [splitAuxF_length]
  | none => simp [splitAuxF_length]

/-- Claim C6: the marker split (both the canonical variant and the
first-app variant of `part_004`) on `"Task type: A\nbody1\nTask type:
B\nbody2"` yields exactly the two sections `{A, body1}` and `{B, body2}`;
any text in which the marker regex matches nowhere splits into zero
sections; and the text before the first marker is discarded (the preamble
example), the split using only the parts after the first match. -/
theorem c6_marker_split :
    (splitByTaskType exC6 = [secA, secB] ∧ splitByTaskType_v1 exC6 = [secA, secB]) ∧
    (∀ s : List Char, hasMarker s = false →
      splitByTaskType s = [] ∧ splitByTaskType_v1 s = []) ∧
    (splitByTaskType exPre = [secA] ∧ splitByTaskType_v1 exPre = [secA]) := by
  refine ⟨⟨by decide, by decide⟩, ?_, by decide, by decide⟩
  intro s h
  constructor
  · unfold splitByTaskType
    by_cases hraw : (trimWS s).isEmpty
    · simp [hraw]
    · simp only [hraw, Bool.false_eq_true, not_false_iff, if_neg]
      rw [splitMarker_no_marker (trimWS s) (hasMarker_trim_false s h)]
      simp
  · unfold splitByTaskType_v1
    rw [splitMarker_no_marker s h]
    simp

/-- Witness for C6: a markerless text splits into zero sections in both
variants. -/
theorem c6_split_witness :
    splitByTaskType "plain text".data = [] ∧
    splitByTaskType_v1 "plain text".data = [] :=
  c6_marker_split.2.1 "plain text".data (by decide)

theorem splitByTaskType_v1_length (s : List Char) :
    (splitByTaskType_v1 s).length = countMarkers s := by
  unfold splitByTaskType_v1
  rw [List.length_map, List.length_drop, splitMarker_length]
  simp

/-- Claim C7 (amended): the splitter of the first app of `part_004` (lines
71-80, no block filter) emits exactly one section per marker occurrence,
and a title empty after trimming becomes `"Untitled"` (so no emitted title
is empty); heading-only markers are emitted with empty content by both
variants when the block is non-empty.  The canonical variant (`part_004`
lines 385-404, `filter(Boolean)`) emits at most one section per marker: a
marker whose whole block trims to nothing is dropped
(`c7_counterexample`). -/
theorem c7_section_per_marker :
    (∀ s : List Char, (splitByTaskType_v1 s).length = countMarkers s) ∧
    (∀ s : List Char, ∀ sec ∈ splitByTaskType_v1 s, sec.title ≠ []) ∧
    (splitByTaskType_v1 exHeadOnly =
      [{ title := "A".data, content := [] }, { title := "B".data, content := [] }] ∧
     splitByTaskType exHeadOnly =
      [{ title := "A".data, content := [] }, { title := "B".data, content := [] }]) ∧
    splitByTaskType_v1 "Task type:".data =
      [{ title := "Untitled".data, content := [] }] ∧
    (∀ s : List Char, (splitByTaskType s).length ≤ countMarkers (trimWS s)) := by
  refine ⟨splitByTaskType_v1_length, ?_, ⟨by decide, by decide⟩, by decide, ?_⟩
  · intro s sec hsec
    obtain ⟨p, -, rfl⟩ := List.mem_map.mp hsec
    simp only [mkSectionPart]
    split
    · intro he
      exact absurd he (by decide)
    · rename_i h0
      intro he
      rw [he] at h0
      exact h0 rfl
  · intro s
    unfold splitByTaskType
    by_cases hraw : (trimWS s).isEmpty
    · simp [hraw]
    · simp only [hraw, Bool.false_eq_true, not_false_iff, if_neg]
      rw [List.length_map]
      have h1 : (List.filter (fun b => !b.isEmpty)
          (List.map trimWS (List.drop 1 (splitMarker (trimWS s))))).length ≤
          (List.map trimWS (List.drop 1 (splitMarker (trimWS s)))).length :=
        List.length_filter_le _ _
      have h2 : (List.map trimWS (List.drop 1 (splitMarker (trimWS s)))).length =
          countMarkers (trimWS s) := by
        rw [List.length_map, List.length_drop, splitMarker_length]
        simp
      omega

/-- Witness for C7: the first heading-only section is emitted and its
title is non-empty. -/
theorem c7_title_witness : ({ title := "A".data, content := [] } : Section).title ≠ [] :=
  c7_section_per_marker.2.1 exHeadOnly { title := "A".data, content := [] } (by decide)

/-- Counterexample for C7 as stated: the canonical splitter sees two
marker occurrences in `"Task type: A\nbody\nTask type:"` but emits only
one section - the heading-only second marker, whose content would be
empty, is dropped by the block filter. -/
theorem c7_counterexample :
    countMarkers (trimWS exTrailingMarker) = 2 ∧
    splitByTaskType exTrailingMarker =
      [{ title := "A".data, content := "body".data }] := by decide

end KnowledgeHub
